import Mathlib

/-!
Verification of the Eitaa messenger crawler against its specification.

The definitions below are a shallow embedding of the Python source:

* `isNewMessage`, `newOfRaw`, `processRawMessages`, `checkpointAfter`
  embed the per-channel message loop of
  `EitaaCrawler.crawl_new_messages_and_bios` (src/app/crawler.py,
  lines 168-214): novelty check, latest-time tracking, checkpoint update.

Timestamps are modelled as `Int` (the code compares timezone-aware
datetimes, a totally ordered type); message ids as `Nat`; channel ids
as `String`.
-/

namespace Crawler

/-- A structured message as produced by `extract_message_details`:
the numeric id and the `posted_time` field, whose ISO parse may fail
(`datetime.fromisoformat` raising `ValueError`/`KeyError` is modelled
as `none`). -/
structure ExtractedMsg where
  id : Nat
  postedTime : Option Int
  deriving DecidableEq, Repr

/-- A raw fragment handed to the extractor; `none` models an extraction
failure (`extract_message_details` returning a falsy value). -/
abbrev RawMsg := Option ExtractedMsg

/-- A fully parsed message appended to the `new_messages` list. -/
structure Msg where
  id : Nat
  postedTime : Int
  deriving DecidableEq, Repr

/-- The novelty condition of crawler.py line 190:
`(not last_time or posted_time > last_time) and msg["id"] not in existing_ids`. -/
def isNewMessage (lastTime : Option Int) (existingIds : List Nat)
    (msgId : Nat) (postedTime : Int) : Bool :=
  (match lastTime with
   | none => true
   | some l => decide (l < postedTime)) && !(existingIds.contains msgId)

/-- Per-fragment processing (crawler.py lines 174-196): extraction failure
and timestamp-parse failure are skipped; otherwise the novelty check
decides whether the message joins `new_messages`. -/
def newOfRaw (lastTime : Option Int) (existingIds : List Nat) :
    RawMsg → Option Msg
  | none => none
  | some m =>
    match m.postedTime with
    | none => none
    | some t =>
      if isNewMessage lastTime existingIds m.id t then some ⟨m.id, t⟩ else none

/-- The `latest_time` update of crawler.py line 193:
`max(latest_time or posted_time, posted_time) if latest_time else posted_time`. -/
def updateLatest (latest : Option Int) (t : Int) : Option Int :=
  match latest with
  | none => some t
  | some l => some (max l t)

/-- One step of the message loop: a raw fragment either contributes a new
message (appended, with `latest_time` updated) or leaves the state alone. -/
def processStep (lastTime : Option Int) (existingIds : List Nat)
    (acc : List Msg × Option Int) (raw : RawMsg) : List Msg × Option Int :=
  match newOfRaw lastTime existingIds raw with
  | none => acc
  | some msg => (acc.1 ++ [msg], updateLatest acc.2 msg.postedTime)

/-- The message loop of crawler.py lines 168-200: starting from
`new_messages = []` and `latest_time = last_time`, fold over the raw
fragments. Returns `(new_messages, latest_time)`. -/
def processRawMessages (lastTime : Option Int) (existingIds : List Nat)
    (raws : List RawMsg) : List Msg × Option Int :=
  raws.foldl (processStep lastTime existingIds) ([], lastTime)

/-- The checkpoint update of crawler.py lines 207-214: only when
`new_messages` is non-empty (and `latest_time` is set) is the channel's
entry in `last_crawled_times` replaced by `latest_time`. -/
def checkpointAfter (lastTime : Option Int) (existingIds : List Nat)
    (raws : List RawMsg) : Option Int :=
  let r := processRawMessages lastTime existingIds raws
  if r.1 ≠ [] then
    match r.2 with
    | some t => some t
    | none => lastTime
  else lastTime

lemma processRawMessages_aux (lastTime : Option Int) (existingIds : List Nat)
    (raws : List RawMsg) (a : List Msg) (t : Option Int) :
    (raws.foldl (processStep lastTime existingIds) (a, t)).1 =
      a ++ raws.filterMap (newOfRaw lastTime existingIds) := by
  induction raws generalizing a t with
  | nil => simp
  | cons raw rest ih =>
    simp only [List.foldl_cons, List.filterMap_cons]
    cases h : newOfRaw lastTime existingIds raw with
    | none => simp [processStep, h, ih]
    | some msg => simp [processStep, h, ih]

lemma processRawMessages_fst (lastTime : Option Int) (existingIds : List Nat)
    (raws : List RawMsg) :
    (processRawMessages lastTime existingIds raws).1 =
      raws.filterMap (newOfRaw lastTime existingIds) := by
  simpa using processRawMessages_aux lastTime existingIds raws [] lastTime

lemma newOfRaw_eq_some_iff (lastTime : Option Int) (existingIds : List Nat)
    (raw : RawMsg) (m : Msg) :
    newOfRaw lastTime existingIds raw = some m ↔
      raw = some ⟨m.id, some m.postedTime⟩ ∧
        isNewMessage lastTime existingIds m.id m.postedTime = true := by
  constructor
  · intro h
    cases raw with
    | none => simp [newOfRaw] at h
    | some e =>
      cases he : e.postedTime with
      | none => simp [newOfRaw, he] at h
      | some t =>
        simp only [newOfRaw, he] at h
        by_cases hnew : isNewMessage lastTime existingIds e.id t = true
        · simp only [hnew, if_pos] at h
          cases h
          exact ⟨by cases e; simp_all, by simpa using hnew⟩
        · simp [hnew] at h
  · rintro ⟨rfl, hnew⟩
    simp [newOfRaw, hnew]

lemma isNewMessage_eq_true_iff (lastTime : Option Int) (existingIds : List Nat)
    (msgId : Nat) (t : Int) :
    isNewMessage lastTime existingIds msgId t = true ↔
      msgId ∉ existingIds ∧ ∀ l ∈ lastTime, l < t := by
  cases lastTime <;> simp [isNewMessage, And.comm]

lemma foldl_snd_mono (lastTime : Option Int) (existingIds : List Nat)
    (raws : List RawMsg) :
    ∀ (a : List Msg) (t : Int),
      ∃ t', (raws.foldl (processStep lastTime existingIds) (a, some t)).2 =
          some t' ∧ t ≤ t' := by
  induction raws with
  | nil => exact fun a t => ⟨t, rfl, le_refl t⟩
  | cons raw rest ih =>
    intro a t
    simp only [List.foldl_cons]
    cases h : newOfRaw lastTime existingIds raw with
    | none => simpa [processStep, h] using ih a t
    | some msg =>
      obtain ⟨t', ht', hle⟩ := ih (a ++ [msg]) (max t msg.postedTime)
      exact ⟨t', by simpa [processStep, h, updateLatest] using ht',
        le_trans (le_max_left _ _) hle⟩

/-- C1: a fetched post is added to the new set iff its numeric id is absent
from the channel's existing stored-id set and (no checkpoint timestamp
exists or the post's posted timestamp is strictly greater than the
checkpoint); with checkpoint 10, fetched ids 1, 2, 3 where ids 1 and 2 are
already present and id 3 is posted after the checkpoint, exactly record 3
is appended. -/
theorem C1_new_message_iff :
    (∀ (lastTime : Option Int) (existingIds : List Nat) (raws : List RawMsg)
        (m : Msg),
        m ∈ (processRawMessages lastTime existingIds raws).1 ↔
          (some ⟨m.id, some m.postedTime⟩ : RawMsg) ∈ raws ∧
            m.id ∉ existingIds ∧ ∀ l ∈ lastTime, l < m.postedTime)
    ∧ processRawMessages (some 10) [1, 2]
        [some ⟨1, some 4⟩, some ⟨2, some 11⟩, some ⟨3, some 12⟩] =
      ([⟨3, 12⟩], some 12) := by
  refine ⟨fun lastTime existingIds raws m => ?_, by decide⟩
  rw [processRawMessages_fst, List.mem_filterMap]
  constructor
  · rintro ⟨raw, hraw, h⟩
    rw [newOfRaw_eq_some_iff] at h
    obtain ⟨rfl, hnew⟩ := h
    rw [isNewMessage_eq_true_iff] at hnew
    exact ⟨hraw, hnew⟩
  · rintro ⟨hraw, hnew⟩
    exact ⟨some ⟨m.id, some m.postedTime⟩, hraw,
      (newOfRaw_eq_some_iff _ _ _ _).2 ⟨rfl, (isNewMessage_eq_true_iff _ _ _ _).2 hnew⟩⟩

/-- C4: the stored checkpoint is monotonically non-decreasing — when the
channel has an existing checkpoint, the value after processing any fetch
result is defined and is at least the old value (the candidate starts at
the old checkpoint and is only ever replaced via a max with posted
timestamps). -/
theorem C4_checkpoint_monotone :
    ∀ (last : Int) (existingIds : List Nat) (raws : List RawMsg),
      ∃ t', checkpointAfter (some last) existingIds raws = some t' ∧
        last ≤ t' := by
  intro last existingIds raws
  obtain ⟨t', ht', hle⟩ := foldl_snd_mono (some last) existingIds raws [] last
  unfold checkpointAfter processRawMessages
  by_cases hempty :
      (raws.foldl (processStep (some last) existingIds) ([], some last)).1 = []
  · exact ⟨last, by simp [hempty], le_refl last⟩
  · exact ⟨t', by simp [hempty, ht'], hle⟩

end Crawler

namespace Storage

/-!
Shallow embedding of the durability pipeline:
`HybridStorageStrategy.save` (src/app/data/storage_strategies.py, lines
97-105), `KafkaManager.send` (src/app/kafka/kafka_manager.py, lines
87-162) and `KafkaManager.delivery_report` (lines 48-74).

The state tracks the set of on-disk files, the `pending_deliveries`
mapping (`msg_key → filepath`), and — as ghost state needed to phrase the
durability invariant — the set of keys whose broker delivery was
confirmed (a delivery callback ran with `err is None`).
-/

structure KState where
  files : List String
  pending : List (String × String)
  confirmed : List String
  deriving Repr, DecidableEq

/-- `LocalStorageStrategy.save`: the file at `path` exists afterwards
(created or overwritten). -/
def localSave (path : String) (st : KState) : KState :=
  { st with files := if st.files.contains path then st.files else path :: st.files }

/-- `KafkaManager.track_file_for_deletion`: dictionary assignment
`pending_deliveries[msg_key] = filepath`. -/
def trackFileForDeletion (key path : String) (st : KState) : KState :=
  { st with pending := (key, path) :: st.pending.filter (fun kv => !(kv.1 == key)) }

/-- Dictionary lookup `pending_deliveries[msg_key]`. -/
def lookupPending (key : String) (st : KState) : Option String :=
  (st.pending.find? (fun kv => kv.1 == key)).map Prod.snd

/-- `KafkaManager.delivery_report`: on a failed delivery the pending entry
is dropped and the file untouched; on a confirmed delivery the tracked
file is removed from disk and the pending entry dropped. -/
def deliveryReport (err : Bool) (key : String) (st : KState) : KState :=
  match err with
  | true =>
    match lookupPending key st with
    | some _ => { st with pending := st.pending.filter (fun kv => !(kv.1 == key)) }
    | none => st
  | false =>
    match lookupPending key st with
    | some path =>
        { st with
          files := st.files.filter (fun p => !(p == path)),
          pending := st.pending.filter (fun kv => !(kv.1 == key)),
          confirmed := key :: st.confirmed }
    | none => { st with confirmed := key :: st.confirmed }

/-- The events a single `HybridStorageStrategy.save` call performs. -/
inductive SaveEv
  | localWrite (path : String)
  | track (key path : String)
  | callback (err : Bool) (key : String)
  deriving Repr, DecidableEq

def stepEv (st : KState) : SaveEv → KState
  | .localWrite p => localSave p st
  | .track k p => trackFileForDeletion k p st
  | .callback err k => deliveryReport err k st

def callbackEvents (key : String) (errs : List Bool) : List SaveEv :=
  errs.map (fun e => SaveEv.callback e key)

/-- The event trace of one `HybridStorageStrategy.save`: the local write
always comes first; only with broker forwarding enabled and the producer
available is the file tracked and published, after which `flush` runs the
delivery callbacks (`errs` is the sequence of callback error flags; it may
be empty when the flush times out before any callback resolves). -/
def hybridSaveTrace (useKafka kavail : Bool) (key path : String)
    (errs : List Bool) : List SaveEv :=
  SaveEv.localWrite path ::
    (if useKafka && kavail then SaveEv.track key path :: callbackEvents key errs
     else [])

/-- The durability property for one save: the local file exists on disk or
the broker delivery for the save's key was confirmed. -/
def saveOK (key path : String) (st : KState) : Prop :=
  path ∈ st.files ∨ key ∈ st.confirmed

def saveInv (key path : String) (st : KState) : Prop :=
  saveOK key path st ∧
    (lookupPending key st = some path ∨ lookupPending key st = none)

lemma mem_files_localSave (path : String) (st : KState) :
    path ∈ (localSave path st).files := by
  unfold localSave
  split
  · next h => exact List.elem_iff.mp h
  · exact List.mem_cons_self _ _

lemma find?_filter_key (key : String) (l : List (String × String)) :
    (l.filter (fun kv => !(kv.1 == key))).find? (fun kv => kv.1 == key) = none := by
  induction l with
  | nil => rfl
  | cons kv rest ih =>
    by_cases h : (kv.1 == key) = true
    · simp [List.filter_cons, h, ih]
    · simp [List.filter_cons, h, List.find?_cons, ih]

lemma files_track (key path : String) (st : KState) :
    (trackFileForDeletion key path st).files = st.files := rfl

lemma confirmed_track (key path : String) (st : KState) :
    (trackFileForDeletion key path st).confirmed = st.confirmed := rfl

lemma lookup_track (key path : String) (st : KState) :
    lookupPending key (trackFileForDeletion key path st) = some path := by
  simp [lookupPending, trackFileForDeletion]

lemma deliveryReport_inv (err : Bool) (key path : String) (st : KState)
    (h : saveInv key path st) : saveInv key path (deliveryReport err key st) := by
  obtain ⟨hok, hpend⟩ := h
  cases err with
  | true =>
    cases hp : lookupPending key st with
    | some p =>
      refine ⟨?_, Or.inr ?_⟩
      · simp only [deliveryReport, hp]
        simpa [saveOK] using hok
      · simp only [deliveryReport, hp]
        simp only [lookupPending]
        rw [find?_filter_key]
        rfl
    | none =>
      refine ⟨?_, Or.inr ?_⟩
      · simp only [deliveryReport, hp]
        exact hok
      · simp only [deliveryReport, hp]
  | false =>
    cases hp : lookupPending key st with
    | some p =>
      refine ⟨Or.inr ?_, Or.inr ?_⟩
      · simp only [deliveryReport, hp]
        exact List.mem_cons_self _ _
      · simp only [deliveryReport, hp]
        simp only [lookupPending]
        rw [find?_filter_key]
        rfl
    | none =>
      refine ⟨Or.inr ?_, Or.inr ?_⟩
      · simp only [deliveryReport, hp]
        exact List.mem_cons_self _ _
      · simp only [deliveryReport, hp]
        exact hp

lemma foldl_callbacks_inv (key path : String) (errs : List Bool) :
    ∀ (st : KState), saveInv key path st →
      saveInv key path ((callbackEvents key errs).foldl stepEv st) := by
  induction errs with
  | nil => exact fun st h => h
  | cons e rest ih =>
    intro st h
    exact ih _ (deliveryReport_inv e key path st h)

lemma saveInv_start (key path : String) (st0 : KState) :
    saveInv key path (trackFileForDeletion key path (localSave path st0)) :=
  ⟨Or.inl (mem_files_localSave path st0), Or.inl (lookup_track key path _)⟩

/-- C2: for a batch handed to the hybrid coordinator, the local write is
the first event of the save's trace (local-before-publish); after the
local write, at every point of the trace either the local file exists on
disk or the broker delivery was confirmed; and a failed delivery drops the
pending entry while leaving the files on disk untouched. -/
theorem C2_hybrid_durability :
    (∀ (useKafka kavail : Bool) (key path : String) (errs : List Bool),
        (hybridSaveTrace useKafka kavail key path errs).head? =
          some (SaveEv.localWrite path))
    ∧ (∀ (useKafka kavail : Bool) (key path : String) (errs : List Bool)
          (st0 : KState) (k : Nat),
        saveOK key path
          (((hybridSaveTrace useKafka kavail key path errs).take (k + 1)).foldl
            stepEv st0))
    ∧ (∀ (key : String) (st : KState),
        (deliveryReport true key st).files = st.files ∧
          lookupPending key (deliveryReport true key st) = none) := by
  refine ⟨fun _ _ _ _ _ => rfl, ?_, ?_⟩
  · intro useKafka kavail key path errs st0 k
    have hsplit : (hybridSaveTrace useKafka kavail key path errs).take (k + 1) =
        SaveEv.localWrite path ::
          (if useKafka && kavail then
              SaveEv.track key path :: callbackEvents key errs
            else []).take k := by
      simp [hybridSaveTrace]
    rw [hsplit, List.foldl_cons]
    by_cases huk : (useKafka && kavail) = true
    · rw [if_pos huk]
      cases k with
      | zero =>
        exact Or.inl (mem_files_localSave path st0)
      | succ k =>
        rw [List.take_succ_cons, List.foldl_cons]
        have htk : (callbackEvents key errs).take k =
            callbackEvents key (errs.take k) := by
          simp [callbackEvents, List.map_take]
        rw [htk]
        exact (foldl_callbacks_inv key path (errs.take k) _
          (saveInv_start key path st0)).1
    · rw [if_neg huk]
      rw [List.take_nil, List.foldl_nil]
      exact Or.inl (mem_files_localSave path st0)
  · intro key st
    cases hp : lookupPending key st with
    | some p =>
      refine ⟨?_, ?_⟩
      · simp only [deliveryReport, hp]
      · simp only [deliveryReport, hp]
        simp only [lookupPending]
        rw [find?_filter_key]
        rfl
    | none =>
      refine ⟨?_, ?_⟩
      · simp only [deliveryReport, hp]
      · simp only [deliveryReport, hp]

/-- `EitaaCrawler._save_last_crawled_times` (crawler.py lines 50-55): the
checkpoint mapping is saved through the message handler's hybrid storage
strategy at `config.LAST_TIME_FILE`, so its event trace is a hybrid save
of that path; the message key for a dict without id/channel fields is the
`single_<hash>` form of `KafkaManager.send`. -/
def saveCheckpointTrace (useKafka kavail : Bool) (key : String)
    (errs : List Bool) : List SaveEv :=
  hybridSaveTrace useKafka kavail key "./last_crawled_times.json" errs

/-- C3 (behaviour at the failing input): with broker forwarding enabled
and the broker confirming delivery of the checkpoint payload, the delivery
callback deletes the checkpoint backing file — after the save completes,
`last_crawled_times.json` is gone from disk even though the delivery was
confirmed, so the next startup's load finds no checkpoint file. -/
theorem C3_checkpoint_file_deleted_on_confirmed_delivery :
    ((saveCheckpointTrace true true "single_7" [false]).foldl stepEv
        ⟨[], [], []⟩).files = []
    ∧ "single_7" ∈
        ((saveCheckpointTrace true true "single_7" [false]).foldl stepEv
          ⟨[], [], []⟩).confirmed := by
  refine ⟨by decide, by decide⟩

end Storage

namespace Retention

/-!
Shallow embedding of `MessageHandler.save` / `MessageHandler.cleanup`
(src/app/data/data_handlers.py, lines 39-59 and 79-96), restricted to
their effect on the channel's snapshot directory. Snapshot file names
`messages_<timestamp>.json` are modelled as naturals whose order agrees
with the lexicographic order of the names (the timestamp format is
zero-padded, so lexicographic order is creation order).
-/

/-- `MessageHandler.cleanup`: returns unchanged when the retention count
is not positive; otherwise, when more than `n` files are present, sorts
the names and deletes all but the last `n`. -/
def cleanupFiles (n : Int) (files : List Nat) : List Nat :=
  if n ≤ 0 then files
  else if n < (files.length : Int) then
    (files.insertionSort (· ≤ ·)).drop (files.length - n.toNat)
  else files

/-- `MessageHandler.save`: the timestamped snapshot is written into the
channel directory, and when the retention count is positive `cleanup`
runs. -/
def saveSnapshot (n : Int) (dir : List Nat) (name : Nat) : List Nat :=
  if 0 < n then cleanupFiles n (dir ++ [name]) else dir ++ [name]

/-- A sequence of `MessageHandler.save` operations for one channel. -/
def runSaves (n : Int) (dir : List Nat) (names : List Nat) : List Nat :=
  names.foldl (saveSnapshot n) dir

lemma saveSnapshot_eq_drop (n : Int) (hn : 0 < n) (dir : List Nat) (name : Nat)
    (hsorted : List.Sorted (· < ·) (dir ++ [name])) :
    saveSnapshot n dir name =
      (dir ++ [name]).drop (dir.length + 1 - n.toNat) := by
  unfold saveSnapshot cleanupFiles
  rw [if_pos hn, if_neg (by omega)]
  by_cases hlen : n < ((dir ++ [name]).length : Int)
  · rw [if_pos hlen]
    have hs2 : List.Sorted (· ≤ ·) (dir ++ [name]) := hsorted.imp le_of_lt
    rw [List.Sorted.insertionSort_eq hs2]
    congr 1
    simp
  · rw [if_neg hlen]
    have : dir.length + 1 - n.toNat = 0 := by
      simp only [List.length_append, List.length_cons, List.length_nil] at hlen
      omega
    rw [this, List.drop_zero]

lemma runSaves_eq (n : Int) (hn : 0 < n) :
    ∀ (names dir : List Nat), List.Sorted (· < ·) (dir ++ names) →
      dir.length ≤ n.toNat →
      runSaves n dir names =
        (dir ++ names).drop ((dir ++ names).length - n.toNat) := by
  intro names
  induction names with
  | nil =>
    intro dir _ hle
    simp only [runSaves, List.foldl_nil, List.append_nil]
    rw [Nat.sub_eq_zero_of_le hle, List.drop_zero]
  | cons name rest ih =>
    intro dir hsorted hle
    have hsorted1 : List.Sorted (· < ·) (dir ++ [name]) := by
      refine hsorted.sublist ?_
      have : dir ++ name :: rest = (dir ++ [name]) ++ rest := by simp
      rw [this]
      exact List.sublist_append_left _ _
    have hstep : runSaves n dir (name :: rest) =
        runSaves n (saveSnapshot n dir name) rest := rfl
    rw [hstep, saveSnapshot_eq_drop n hn dir name hsorted1]
    have hassoc : dir ++ name :: rest = (dir ++ [name]) ++ rest := by simp
    set d := dir.length + 1 - n.toNat with hd
    have hdle : d ≤ (dir ++ [name]).length := by
      simp only [List.length_append, List.length_cons, List.length_nil]
      omega
    have hsub : List.Sublist ((dir ++ [name]).drop d ++ rest)
        ((dir ++ [name]) ++ rest) :=
      ((List.drop_suffix d (dir ++ [name])).sublist).append_right rest
    have hsorted2 : List.Sorted (· < ·) ((dir ++ [name]).drop d ++ rest) := by
      rw [hassoc] at hsorted
      exact hsorted.sublist hsub
    have hlen2 : ((dir ++ [name]).drop d).length ≤ n.toNat := by
      rw [List.length_drop]
      simp only [List.length_append, List.length_cons, List.length_nil]
      omega
    rw [ih _ hsorted2 hlen2]
    have hdropapp : ((dir ++ [name]) ++ rest).drop d =
        (dir ++ [name]).drop d ++ rest := by
      rw [List.drop_append_eq_append_drop, Nat.sub_eq_zero_of_le hdle,
        List.drop_zero]
    rw [hassoc, ← hdropapp, List.drop_drop]
    congr 1
    simp only [List.length_append, List.length_drop, List.length_cons,
      List.length_nil]
    omega

/-- C5: with retention count N > 0, after any number of saves (from an
empty snapshot directory, with strictly increasing timestamped names) the
directory holds exactly the last min(k, N) of the k names created — the N
most recently created files — and in particular at most N files. -/
theorem C5_retention (n : Int) (names : List Nat) (hn : 0 < n)
    (hnames : List.Sorted (· < ·) names) :
    runSaves n [] names = names.drop (names.length - n.toNat)
    ∧ (runSaves n [] names).length ≤ n.toNat := by
  have h := runSaves_eq n hn names [] (by simpa using hnames) (by simp)
  simp only [List.nil_append] at h
  refine ⟨h, ?_⟩
  rw [h, List.length_drop]
  omega

/-- Scenario E: retention count 2, three sequential saves leave exactly
the two newest snapshot files. -/
theorem C5_retention_witness :
    (0 : Int) < 2 ∧ List.Sorted (· < ·) [1, 2, 3] ∧
      runSaves 2 [] [1, 2, 3] = [2, 3] := by
  refine ⟨by decide, by decide, ?_⟩
  have h := (C5_retention 2 [1, 2, 3] (by decide) (by decide)).1
  simpa using h

end Retention

namespace Fetch

/-!
Shallow embedding of the retry loop of `NetworkManager.fetch_channel_data`
(src/app/network/network_manager.py, lines 34-122). One `AttemptRes` is
the observable outcome of one loop iteration's HTTP request; the loop is
`for attempt in range(retries)`, so the list of outcomes has length
`retries` and the recursion consumes it attempt by attempt. The check
`attempt < retries - 1` of the exception handlers is `rest ≠ []` here.
The second component of the result records the successive sleep durations
(seconds), in order.
-/

inductive AttemptRes
  | success
  | http (code : Nat)
  | connError
  | timeoutErr
  | otherExc
  deriving DecidableEq, Repr

inductive FetchOutcome
  | success
  | notFound
  | forbidden
  | serverError (code : Nat)
  | connFailed
  | timedOut
  | errOther
  | maxRetries
  deriving DecidableEq, Repr

def fetchLoop : List AttemptRes → Nat → FetchOutcome × List Nat
  | [], _ => (FetchOutcome.maxRetries, [])
  | o :: rest, attempt =>
    match o with
    | .success => (FetchOutcome.success, [])
    | .http code =>
      if code = 404 then (FetchOutcome.notFound, [])
      else if code = 403 then (FetchOutcome.forbidden, [])
      else if code = 429 then
        let w := min 60 ((attempt + 1) * 20)
        let r := fetchLoop rest (attempt + 1)
        (r.1, w :: r.2)
      else if 500 ≤ code then (FetchOutcome.serverError code, [])
      else
        match rest with
        | [] => (FetchOutcome.errOther, [])
        | _ :: _ => fetchLoop rest (attempt + 1)
    | .connError =>
      match rest with
      | [] => (FetchOutcome.connFailed, [])
      | _ :: _ =>
        let w := 2 ^ attempt * 5
        let r := fetchLoop rest (attempt + 1)
        (r.1, w :: r.2)
    | .timeoutErr =>
      match rest with
      | [] => (FetchOutcome.timedOut, [])
      | _ :: _ => fetchLoop rest (attempt + 1)
    | .otherExc =>
      match rest with
      | [] => (FetchOutcome.errOther, [])
      | _ :: _ => fetchLoop rest (attempt + 1)

/-- `fetch_channel_data` with its attempt budget: `outcomes.length` plays
the role of `retries` (default 2) and the loop starts at attempt 0. -/
def fetch_channel_data (outcomes : List AttemptRes) : FetchOutcome × List Nat :=
  fetchLoop outcomes 0

/-- C6 counterexample: with the default budget of 2 attempts, two
consecutive 429 responses exhaust the loop and the fetch returns the
max-retries error — each 429 consumed one attempt of the bounded retry
count, contradicting the claim that 429 responses alone never consume it. -/
theorem C6_429_consumes_budget :
    fetch_channel_data [AttemptRes.http 429, AttemptRes.http 429] =
      (FetchOutcome.maxRetries, [20, 40]) := by
  decide

lemma fetchLoop_replicate_429 (k : Nat) :
    ∀ (a : Nat),
      (fetchLoop (List.replicate k (AttemptRes.http 429)) a).1 =
        FetchOutcome.maxRetries := by
  induction k with
  | zero => intro a; rfl
  | succ k ih =>
    intro a
    rw [List.replicate_succ]
    show (fetchLoop (List.replicate k (AttemptRes.http 429)) (a + 1)).1 =
      FetchOutcome.maxRetries
    exact ih (a + 1)

/-- C6 amended: a 429 response makes the fetcher sleep the increasing,
capped wait min(60, (attempt+1)*20) and retry, but the retry consumes one
unit of the same bounded attempt budget; consequently a budget consisting
entirely of 429 responses ends in the max-retries error (for every budget
size), not in an unbounded retry of the same budget. -/
theorem C6_429_backoff_amended :
    (∀ (rest : List AttemptRes) (attempt : Nat),
        fetchLoop (AttemptRes.http 429 :: rest) attempt =
          ((fetchLoop rest (attempt + 1)).1,
            min 60 ((attempt + 1) * 20) :: (fetchLoop rest (attempt + 1)).2))
    ∧ (∀ (k : Nat),
        (fetch_channel_data (List.replicate k (AttemptRes.http 429))).1 =
          FetchOutcome.maxRetries) := by
  exact ⟨fun rest attempt => rfl, fun k => fetchLoop_replicate_429 k 0⟩

end Fetch

namespace App

/-!
Shallow embedding of `EitaaCrawlerApplication.load_channels` and the
channel-list handling of `EitaaCrawlerApplication.run`
(src/app/eita_crawler.py, lines 33-56 and 88-92).
-/

inductive ChannelsFileContent
  | missing
  | invalidJson
  | nonArray
  | jsonArray (channels : List String)
  deriving DecidableEq, Repr

/-- `load_channels`: a JSON array parses to its list of channels; a
missing file and invalid JSON return the empty list from their handlers,
and non-array content raises a ValueError that the generic
`except Exception` clause of the same method catches, also returning the
empty list. -/
def load_channels : ChannelsFileContent → List String
  | .jsonArray cs => cs
  | _ => []

/-- Startup result of `EitaaCrawlerApplication.run` with respect to the
channel list: `some code` means the method returned at startup and the
process terminated with that exit status; `none` means the channel check
passed and the crawler was constructed and started. When `load_channels`
yields no channels, `run` logs and executes a plain `return`, so `main`
returns and the interpreter exits with status 0. -/
def appExitStatus (content : ChannelsFileContent) : Option Nat :=
  if (load_channels content).isEmpty then some 0 else none

/-- C7 counterexample: for a missing channel-list file, an empty JSON
array, non-array content, and invalid JSON alike, the program terminates
at startup with exit status 0 — a normal return after logging — not with
a non-zero exit status as claimed. -/
theorem C7_zero_exit_on_bad_channel_list :
    appExitStatus ChannelsFileContent.missing = some 0
    ∧ appExitStatus ChannelsFileContent.invalidJson = some 0
    ∧ appExitStatus ChannelsFileContent.nonArray = some 0
    ∧ appExitStatus (ChannelsFileContent.jsonArray []) = some 0 := by
  decide

/-- C7 amended: an absent channel-list file, an empty array, and
non-array content are all treated as a fatal configuration condition at
startup — the program logs and terminates before any crawl cycle — but it
terminates by returning normally with exit status zero, not with a
non-zero status; with a non-empty channel array the startup check passes
and the crawler is started. -/
theorem C7_startup_behaviour :
    (∀ (content : ChannelsFileContent),
        appExitStatus content = some 0 ∨ appExitStatus content = none)
    ∧ appExitStatus ChannelsFileContent.missing = some 0
    ∧ appExitStatus ChannelsFileContent.invalidJson = some 0
    ∧ appExitStatus ChannelsFileContent.nonArray = some 0
    ∧ appExitStatus (ChannelsFileContent.jsonArray []) = some 0
    ∧ appExitStatus (ChannelsFileContent.jsonArray ["foo"]) = none := by
  refine ⟨?_, by decide, by decide, by decide, by decide, by decide⟩
  intro content
  unfold appExitStatus
  by_cases h : (load_channels content).isEmpty
  · exact Or.inl (by rw [if_pos h])
  · exact Or.inr (by rw [if_neg h])

end App

namespace Batching

/-!
Shallow embedding of the batch loop of
`EitaaCrawler.crawl_new_messages_and_bios` (src/app/crawler.py, lines
87-104): `for i in range(0, len(channels), batch_size)` slices
`batch = channels[i:i+batch_size]`; when the previous batch observed a
rate-limit signal and the slice holds more than 3 channels, the slice is
truncated to `max(3, len/2)` with a 30 second delay inserted, and the
flag is cleared unconditionally before the channels are processed. The
loop index `i` always advances by the full `batch_size`.
-/

variable {α : Type}

/-- Lines 92-101: returns the batch actually processed, whether the extra
30 second delay was inserted, and the value of `rate_limit_encountered`
when the per-channel loop starts (line 101 clears it unconditionally). -/
def adjustBatch (rateLimited : Bool) (batch : List α) :
    List α × Bool × Bool :=
  if rateLimited = true ∧ 3 < batch.length then
    (batch.take (max 3 (batch.length / 2)), true, false)
  else (batch, false, false)

/-- The slice `channels[j*bs : j*bs + bs]` taken at the j-th iteration of
the outer loop. -/
def batchSlice (channels : List α) (bs j : Nat) : List α :=
  (channels.drop (j * bs)).take bs

/-- Number of iterations of `range(0, len, bs)`. -/
def numBatches (len bs : Nat) : Nat := (len + bs - 1) / bs

/-- The channels of batch `j` that the per-channel loop actually visits;
`flag j` abstracts the value of `rate_limit_encountered` at the start of
batch `j` (determined by the previous batch's fetch errors). -/
def processedBatch (flag : Nat → Bool) (channels : List α) (bs j : Nat) :
    List α :=
  (adjustBatch (flag j) (batchSlice channels bs j)).1

/-- All channels visited during one full cycle. -/
def processedCycle (flag : Nat → Bool) (channels : List α) (bs : Nat) :
    List α :=
  (List.range (numBatches channels.length bs)).flatMap
    (fun j => processedBatch flag channels bs j)

lemma adjustBatch_fst_subset (f : Bool) (b : List α) :
    (adjustBatch f b).1 ⊆ b := by
  unfold adjustBatch
  split
  · exact List.take_subset _ _
  · exact fun x hx => hx

lemma adjustBatch_pos (b : List α) (h3 : 3 < b.length) :
    adjustBatch true b = (b.take (max 3 (b.length / 2)), true, false) := by
  unfold adjustBatch
  rw [if_pos ⟨rfl, h3⟩]

lemma batchSlice_nodup (channels : List α) (bs j : Nat)
    (hnd : channels.Nodup) : (batchSlice channels bs j).Nodup :=
  hnd.sublist ((List.take_sublist _ _).trans (List.drop_sublist _ _))

lemma batchSlice_disjoint (channels : List α) (bs : Nat)
    (hnd : channels.Nodup) (j j' : Nat) (hlt : j < j') (x : α)
    (hj : x ∈ batchSlice channels bs j) (hj' : x ∈ batchSlice channels bs j') :
    False := by
  have h1 : x ∈ channels.take (j * bs + bs) := by
    rw [batchSlice, List.take_drop (j * bs) bs channels] at hj
    exact List.drop_subset _ _ hj
  have h2 : x ∈ channels.drop (j' * bs) := List.take_subset _ _ hj'
  have hle : j * bs + bs ≤ j' * bs := by
    have h := Nat.mul_le_mul_right bs (Nat.succ_le_of_lt hlt)
    rwa [Nat.succ_mul] at h
  exact List.disjoint_take_drop hnd hle h1 h2

/-- C8: for a batch whose predecessor observed a rate-limit signal, a
size s > 3 means the batch is shrunk to its first max(3, s/2) channels
and the extra fixed delay is inserted before processing; and in all cases
the rate-limit flag is cleared before the batch's channels are
processed. -/
theorem C8_rate_limit_batch_shrink :
    (∀ (batch : List String),
        3 < batch.length →
          adjustBatch true batch =
            (batch.take (max 3 (batch.length / 2)), true, false))
    ∧ (∀ (flag : Bool) (batch : List String),
        (adjustBatch flag batch).2.2 = false) := by
  refine ⟨fun batch h3 => adjustBatch_pos batch h3, ?_⟩
  intro flag batch
  unfold adjustBatch
  split <;> rfl

/-- Witness for C8: a batch of ten channels after a rate-limit signal is
shrunk to its first five, the delay flag is set, and the rate-limit flag
is cleared. -/
theorem C8_rate_limit_batch_shrink_witness :
    3 < (["c1", "c2", "c3", "c4", "c5", "c6", "c7", "c8", "c9", "c10"] :
        List String).length
    ∧ adjustBatch true
        ["c1", "c2", "c3", "c4", "c5", "c6", "c7", "c8", "c9", "c10"] =
      (["c1", "c2", "c3", "c4", "c5"], true, false) := by
  refine ⟨by decide, ?_⟩
  exact (C8_rate_limit_batch_shrink.1
    ["c1", "c2", "c3", "c4", "c5", "c6", "c7", "c8", "c9", "c10"]
    (by decide)).trans (by decide)

/-- C10: the channels truncated off a shrunk batch (positions
max(3, s/2) onward of the slice) are visited by no batch of the cycle:
not by the shrunk batch itself, and not by any later or earlier batch,
since the outer loop index advances by the full original batch size. -/
theorem C10_truncated_channels_not_processed :
    ∀ (channels : List String) (flag : Nat → Bool) (bs j : Nat) (x : String),
      channels.Nodup → flag j = true →
      3 < (batchSlice channels bs j).length →
      x ∈ (batchSlice channels bs j).drop
            (max 3 ((batchSlice channels bs j).length / 2)) →
      x ∉ processedCycle flag channels bs := by
  intro channels flag bs j x hnd hflag h3 hx hmem
  rw [processedCycle, List.mem_flatMap] at hmem
  obtain ⟨j2, hj2, hxj2⟩ := hmem
  by_cases hjj : j2 = j
  · subst hjj
    simp only [processedBatch, hflag, adjustBatch_pos _ h3] at hxj2
    exact List.disjoint_take_drop (batchSlice_nodup channels bs j2 hnd)
      (le_refl _) hxj2 hx
  · have hxj : x ∈ batchSlice channels bs j := List.drop_subset _ _ hx
    have hxs : x ∈ batchSlice channels bs j2 :=
      adjustBatch_fst_subset _ _ hxj2
    rcases Nat.lt_or_ge j2 j with hlt | hge
    · exact batchSlice_disjoint channels bs hnd j2 j hlt x hxs hxj
    · have hlt2 : j < j2 := lt_of_le_of_ne hge (fun h => hjj h.symm)
      exact batchSlice_disjoint channels bs hnd j j2 hlt2 x hxj hxs

/-- Witness for C10: ten distinct channels, batch size 10, rate-limit
flag set — channel c6 is truncated off the only batch and is processed
nowhere in the cycle. -/
theorem C10_truncated_channels_witness :
    (["c1", "c2", "c3", "c4", "c5", "c6", "c7", "c8", "c9", "c10"] :
        List String).Nodup
    ∧ (fun _ : Nat => true) 0 = true
    ∧ 3 < (batchSlice
        ["c1", "c2", "c3", "c4", "c5", "c6", "c7", "c8", "c9", "c10"] 10 0).length
    ∧ "c6" ∈ (batchSlice
        ["c1", "c2", "c3", "c4", "c5", "c6", "c7", "c8", "c9", "c10"] 10 0).drop
          (max 3 ((batchSlice
            ["c1", "c2", "c3", "c4", "c5", "c6", "c7", "c8", "c9", "c10"]
              10 0).length / 2))
    ∧ "c6" ∉ processedCycle (fun _ : Nat => true)
        ["c1", "c2", "c3", "c4", "c5", "c6", "c7", "c8", "c9", "c10"] 10 := by
  refine ⟨by decide, rfl, by decide, by decide, ?_⟩
  exact C10_truncated_channels_not_processed
    ["c1", "c2", "c3", "c4", "c5", "c6", "c7", "c8", "c9", "c10"]
    (fun _ => true) 10 0 "c6" (by decide) rfl (by decide) (by decide)

end Batching

namespace Proxy

/-!
Shallow embedding of `ProxyManager.test_proxy` and
`ProxyManager.refresh_proxy_pool` (src/app/network/proxy_manager.py,
lines 51-88 and 99-111).
-/

/-- The observable outcome of one `test_proxy` attempt: either some
request in the attempt raised an exception, or all requests returned and
we see the connectivity-check status, the IP-query status, the egress IP
reported through the proxy, and the machine's own IP (`none` when
`_get_local_ip` failed). -/
inductive AttemptOutcome
  | exn
  | result (googleStatus ipStatus : Nat) (proxyIp : String)
      (localIp : Option String)
  deriving DecidableEq, Repr

/-- One attempt's verdict (lines 63-82): a non-200 connectivity check, a
non-200 IP query, an unknown local IP, or an egress IP equal to the local
IP each return `False`; a distinct egress IP returns `True`; an exception
gives no verdict and falls to the retry handler. -/
def testAttemptEval : AttemptOutcome → Option Bool
  | .exn => none
  | .result g i pip lip =>
    if g ≠ 200 then some false
    else if i ≠ 200 then some false
    else
      match lip with
      | none => some false
      | some l => if pip = l then some false else some true

/-- `test_proxy`: two attempts; an attempt that completes returns its
verdict immediately; an exception on the first attempt sleeps 2 seconds
and retries; an exception on the second returns `False`. -/
def test_proxy (a1 a2 : AttemptOutcome) : Bool :=
  match testAttemptEval a1 with
  | some b => b
  | none =>
    match testAttemptEval a2 with
    | some b => b
    | none => false

structure ProxyState where
  pool : List String
  lastRefresh : Nat
  deriving Repr, DecidableEq

/-- `refresh_proxy_pool`: a no-op when the refresh interval has not
elapsed and the pool is non-empty; otherwise the pool is wholly replaced
by those fetched candidates that pass `test_proxy`, and the refresh
timestamp is recorded. `attempts p` gives the two test-attempt outcomes
observed for candidate `p`. -/
def refresh_proxy_pool (attempts : String → AttemptOutcome × AttemptOutcome)
    (candidates : List String) (now interval : Nat) (st : ProxyState) :
    ProxyState :=
  if now - st.lastRefresh < interval ∧ st.pool ≠ [] then st
  else
    { pool := candidates.filter
        (fun p => test_proxy (attempts p).1 (attempts p).2),
      lastRefresh := now }

lemma testAttemptEval_true (a : AttemptOutcome)
    (h : testAttemptEval a = some true) :
    ∃ pip l, a = AttemptOutcome.result 200 200 pip (some l) ∧ pip ≠ l := by
  cases a with
  | exn => simp [testAttemptEval] at h
  | result g i pip lip =>
    by_cases hg : g = 200
    · by_cases hi : i = 200
      · cases lip with
        | none => simp [testAttemptEval, hg, hi] at h
        | some l =>
          by_cases hpl : pip = l
          · simp [testAttemptEval, hg, hi, hpl] at h
          · exact ⟨pip, l, by rw [hg, hi], hpl⟩
      · simp [testAttemptEval, hg, hi] at h
    · simp [testAttemptEval, hg] at h

lemma test_proxy_true (a1 a2 : AttemptOutcome)
    (h : test_proxy a1 a2 = true) :
    testAttemptEval a1 = some true ∨ testAttemptEval a2 = some true := by
  unfold test_proxy at h
  cases h1 : testAttemptEval a1 with
  | some b =>
    rw [h1] at h
    cases b with
    | true => exact Or.inl rfl
    | false => exact absurd h (by simp)
  | none =>
    rw [h1] at h
    cases h2 : testAttemptEval a2 with
    | some b =>
      rw [h2] at h
      cases b with
      | true => exact Or.inr rfl
      | false => exact absurd h (by simp)
    | none => rw [h2] at h; exact absurd h (by simp)

/-- C9: after a refresh that actually rebuilds the pool (the interval
elapsed or the pool was empty), every member of the pool passed
`test_proxy`, and passing means one of its two attempts completed with
both stages at HTTP 200 and an egress IP that was known and differed from
the machine's own IP. -/
theorem C9_pool_members_passed_test :
    ∀ (attempts : String → AttemptOutcome × AttemptOutcome)
      (candidates : List String) (now interval : Nat) (st : ProxyState),
      ¬(now - st.lastRefresh < interval ∧ st.pool ≠ []) →
      ∀ p ∈ (refresh_proxy_pool attempts candidates now interval st).pool,
        test_proxy (attempts p).1 (attempts p).2 = true
        ∧ ∃ a, (a = (attempts p).1 ∨ a = (attempts p).2) ∧
            ∃ pip l, a = AttemptOutcome.result 200 200 pip (some l) ∧
              pip ≠ l := by
  intro attempts candidates now interval st hcond p hp
  rw [refresh_proxy_pool, if_neg hcond] at hp
  have hp2 : p ∈ candidates.filter
      (fun q => test_proxy (attempts q).1 (attempts q).2) := hp
  have htest : test_proxy (attempts p).1 (attempts p).2 = true := by
    have h3 := (List.mem_filter.mp hp2).2
    simpa using h3
  refine ⟨htest, ?_⟩
  rcases test_proxy_true _ _ htest with h1 | h2
  · exact ⟨(attempts p).1, Or.inl rfl, testAttemptEval_true _ h1⟩
  · exact ⟨(attempts p).2, Or.inr rfl, testAttemptEval_true _ h2⟩

/-- A concrete attempt oracle for the C9 witness: every candidate's first
attempt completes with both stages at 200 and a distinct egress IP. -/
def witnessAttempts : String → AttemptOutcome × AttemptOutcome :=
  fun _ => (AttemptOutcome.result 200 200 "9.9.9.9" (some "1.1.1.1"),
    AttemptOutcome.exn)

/-- Witness for C9: an empty pool forces a rebuild; the surviving
candidate passed the two-stage test. -/
theorem C9_pool_members_witness :
    ¬((100 : Nat) - (ProxyState.mk [] 0).lastRefresh < 50 ∧
        (ProxyState.mk [] 0).pool ≠ [])
    ∧ "p1" ∈ (refresh_proxy_pool witnessAttempts ["p1"] 100 50
        (ProxyState.mk [] 0)).pool
    ∧ test_proxy (witnessAttempts "p1").1 (witnessAttempts "p1").2 = true
    ∧ ∃ a, (a = (witnessAttempts "p1").1 ∨ a = (witnessAttempts "p1").2) ∧
        ∃ pip l, a = AttemptOutcome.result 200 200 pip (some l) ∧ pip ≠ l := by
  have h := C9_pool_members_passed_test witnessAttempts ["p1"] 100 50
    (ProxyState.mk [] 0) (by decide) "p1" (by decide)
  exact ⟨by decide, by decide, h.1, h.2⟩

end Proxy
